import Mathlib

/-!
# Verification of the Kazakh Cyrillic → Arabic-script transliteration engine

A shallow embedding of `cyr2arab.py` (class `CyrillicToArabicConverter`).
Words and texts are `List Char`; Python strings become char lists, Python
dictionaries become association lists looked up with `List.find?`, and
Python's `str.lower()` becomes `charLower`, an explicit case-folding table
covering the Cyrillic and Latin letters the converter can ever see.

The definitions follow the source line by line:
* the lookup tables (`PROPER_NOUNS`, `COMMON_WORDS`, `CONSONANTS`, `VOWELS`,
  `COMBINATIONS`, `PUNCTUATION`, the loanword and exception sets);
* the word classifier (`getInitialHarmony`, `isLoanword`, `isIInitialNative`);
* the character transcriber (`emit`, `transcribeAux`, `rawTranscribe`);
* the glottal-marker post-processor (`applyHamzaRule`);
* the segmenter (`applyPunct`, `goText`, `convert`), which reproduces the
  behaviour of `re.sub` with the pattern
  `[а-яәіңғүұқөһёэъьА-ЯӘІҢҒҮҰҚӨҺЁЭЪЬ]+(?:-[...]+)*`.

A second, `Option`-valued copy of the pipeline (`convertE` and friends)
models every raw Python indexing/dictionary access as a fallible operation;
the totality theorem proves it never fails and agrees with the pure model.
-/

/-- The glottal marker (هَمزة / haamza), `self.HAMZA = 'ٴ'`. -/
def HAMZA : Char := 'ٴ'

/-! ## Case folding

`str.lower()` restricted to the alphabets that can reach it: the Cyrillic
letters matched by the segmenter's pattern plus basic Latin.  Every other
character is left unchanged, exactly as Python leaves non-cased characters
unchanged. -/

/-- Uppercase/lowercase pairs: Cyrillic А–Я, Ё, the nine extra Kazakh
letters, and Latin A–Z. -/
def lowerPairs : List (Char × Char) :=
  List.zip "АБВГДЕЖЗИЙКЛМНОПРСТУФХЦЧШЩЪЫЬЭЮЯЁӘІҢҒҮҰҚӨҺABCDEFGHIJKLMNOPQRSTUVWXYZ".toList
           "абвгдежзийклмнопрстуфхцчшщъыьэюяёәіңғүұқөһabcdefghijklmnopqrstuvwxyz".toList

/-- `c.lower()` for a single character. -/
def charLower (c : Char) : Char :=
  match lowerPairs.find? (fun p => p.1 == c) with
  | some p => p.2
  | none => c

/-- `word.lower()`. -/
def strLower (w : List Char) : List Char := w.map charLower

/-! ## Lookup tables (`__init__`) -/

/-- `self.PROPER_NOUNS`. -/
def PROPER_NOUNS : List (String × String) :=
  [("си", "شي"), ("цзиньпин", "جينپيڭ"), ("си цзиньпин", "شي جينپيڭ"),
   ("ли цян", "لي چياڭ"), ("ли", "لي"), ("цян", "چياڭ"),
   ("чжао лэцзи", "جاۋ لىجي"), ("чжао", "جاۋ"), ("лэцзи", "لىجي"),
   ("ван хунин", "ۋاڭ حۋنيڭ"), ("ван", "ۋاڭ"), ("хунин", "حۋنيڭ"),
   ("цай ци", "ساي چي"), ("цай", "ساي"), ("ци", "چي"),
   ("дин сюэсян", "ديڭ شۋەشياڭ"), ("дин", "ديڭ"), ("сюэсян", "شۋەشياڭ"),
   ("ли си", "لي شي"),
   ("шужи", "شۋجي"),
   ("қазақстан", "قازاقستان"), ("алматы", "الماتى"), ("астана", "استانا"),
   ("шымкент", "شىمكەنت"), ("жұңго", "جۇڭگو"),
   ("чанцзян", "چاڭجياڭ"), ("чанцзянның", "چاڭجياڭنىڭ"),
   ("пекин", "بەيجيڭ"),
   ("орталық комитет", "ورتالىق كوميتەت")]

/-- `self.COMMON_WORDS` (exception-word table; `ٴ` is the pre-baked
glottal marker from the source's f-strings). -/
def COMMON_WORDS : List (String × String) :=
  [("сөз", "ٴسوز"),
   ("біздің", "ٴبىزدىڭ"),
   ("отанымыз", "وتانىمىز"),
   ("өте", "ٴوتە"),
   ("көрікті", "كورىكتى"),
   ("өмірімізді", "ومىرىمىزدى"),
   ("өзгертеді", "وزگەرتەدى"),
   ("білім", "ٴبىلىم"),
   ("мен", "مەن"),
   ("ғылым", "عىلىم"),
   ("дамудың", "دامۋدىڭ"),
   ("кілті", "كىلتى"),
   ("бір", "ٴبىر"),
   ("әр", "ٴار"),
   ("іс", "ٴىس"),
   ("өз", "ٴوز"),
   ("үшін", "ٴۇشىن"),
   ("тіл", "ٴتىل"),
   ("өмір", "ٴومىر"),
   ("әнші", "ٴانشى"),
   ("баспасөз", "باسپاسوز"),
   ("емхана", "ەمحانا"),
   ("өнерпаз", "ٴونەرپاز"),
   ("еңбекқор", "ەڭبەكقور"),
   ("арбакеш", "ارباكەش"),
   ("талапкер", "تالاپكەر"),
   ("суретші", "سۋرەتشى"),
   ("жауынгер", "جاۋىنگەر"),
   ("бюджет", "بۋدجەت"),
   ("диагноз", "دىياگنوز"),
   ("токио", "توكىيو"),
   ("тиісінше", "تىيىسىنشە"),
   ("бірақ", "بىراق"),
   ("дәріхана", "دارىحانا"),
   ("сияз", "سىيەز"),
   ("қияр", "قىيار"),
   ("экологиялық", "ەكولوگىيالىق"),
   ("нью-йорк", "نىيۋ-يورك")]

/-- `self.LOANWORD_CONSONANTS = {'ф','Ф','в','В','ц','Ц','ч','Ч'}`. -/
def LOANWORD_CONSONANTS : List Char := "фФвВцЦчЧ".toList

/-- `self.LOANWORD_SUFFIXES`. -/
def LOANWORD_SUFFIXES : List String :=
  ["ция", "сия", "ия", "ология", "графия", "логия", "ика", "изм"]

/-- `self.I_INITIAL_NATIVE_WORDS`. -/
def I_INITIAL_NATIVE_WORDS : List String :=
  ["иіс", "ине", "ит", "ию", "иір", "иіл", "ирі", "иық", "ин"]

/-- Keys of `self.SOFT_PREFIXES_WITH_HARD_ROOT`, in insertion order (the
Python `for prefix in self.SOFT_PREFIXES_WITH_HARD_ROOT` iterates keys in
that order). -/
def SOFT_PREFIXES_WITH_HARD_ROOT : List String :=
  ["бес", "екі", "жеті", "сегіз", "тоғыз"]

/-- `self.CONSONANTS`. -/
def CONSONANTS : List (Char × String) :=
  [('б', "ب"), ('Б', "ب"),
   ('в', "ۆ"), ('В', "ۆ"),
   ('г', "گ"), ('Г', "گ"),
   ('ғ', "ع"), ('Ғ', "ع"),
   ('д', "د"), ('Д', "د"),
   ('ж', "ج"), ('Ж', "ج"),
   ('з', "ز"), ('З', "ز"),
   ('й', "ي"), ('Й', "ي"),
   ('к', "ك"), ('К', "ك"),
   ('қ', "ق"), ('Қ', "ق"),
   ('л', "ل"), ('Л', "ل"),
   ('м', "م"), ('М', "م"),
   ('н', "ن"), ('Н', "ن"),
   ('ң', "ڭ"), ('Ң', "ڭ"),
   ('п', "پ"), ('П', "پ"),
   ('р', "ر"), ('Р', "ر"),
   ('с', "س"), ('С', "س"),
   ('т', "ت"), ('Т', "ت"),
   ('ф', "ف"), ('Ф', "ف"),
   ('х', "ح"), ('Х', "ح"),
   ('һ', "ھ"), ('Һ', "ھ"),
   ('ч', "چ"), ('Ч', "چ"),
   ('ш', "ش"), ('Ш', "ش")]

/-- `self.VOWELS` (И is deliberately absent: handled specially). -/
def VOWELS : List (Char × String) :=
  [('а', "ا"), ('А', "ا"),
   ('ә', "ا"), ('Ә', "ا"),
   ('е', "ە"), ('Е', "ە"),
   ('о', "و"), ('О', "و"),
   ('ө', "و"), ('Ө', "و"),
   ('у', "ۋ"), ('У', "ۋ"),
   ('ұ', "ۇ"), ('Ұ', "ۇ"),
   ('ү', "ۇ"), ('Ү', "ۇ"),
   ('ы', "ى"), ('Ы', "ى"),
   ('і', "ى"), ('І', "ى"),
   ('э', "ە"), ('Э', "ە")]

/-- `self.COMBINATIONS`. -/
def COMBINATIONS : List (Char × String) :=
  [('ц', "تس"), ('Ц', "تس"),
   ('щ', "شش"), ('Щ', "شش"),
   ('ю', "يۋ"), ('Ю', "يۋ"),
   ('я', "يا"), ('Я', "يا"),
   ('ё', "يو"), ('Ё', "يو")]

/-- `self.FRONT_VOWELS`. -/
def FRONT_VOWELS : List Char := "әӘеЕіІөӨүҮ".toList

/-- `self.BACK_VOWELS`. -/
def BACK_VOWELS : List Char := "аАоОұҰыЫуУ".toList

/-- `self.PUNCTUATION`, in insertion order. -/
def PUNCTUATION : List (Char × Char) :=
  [(',', '،'), ('.', '.'), (':', ':'), (';', '؛'), ('?', '؟'), ('!', '!')]

/-- The vowel class of the hiatus regex `[аәеоөұүіыиэ]{2,}` in
`is_loanword`. -/
def hiatusVowels : List Char := "аәеоөұүіыиэ".toList

/-- `vowels = set('аәеоөұүіыиэуюяё')` used by the triple-consonant check. -/
def countVowels : List Char := "аәеоөұүіыиэуюяё".toList

/-! ## Generic lookups -/

/-- Python `d[k]`-after-`k in d` for the word dictionaries (`None` = miss). -/
def dictFind (d : List (String × String)) (k : List Char) : Option (List Char) :=
  (d.find? (fun p => p.1.toList == k)).map (fun p => p.2.toList)

/-- Lookup in a per-character table. -/
def mapFind (d : List (Char × String)) (c : Char) : Option (List Char) :=
  (d.find? (fun p => p.1 == c)).map (fun p => p.2.toList)

/-- `word_lower in <set of strings>`. -/
def strIn (l : List String) (k : List Char) : Bool :=
  l.any (fun s => s.toList == k)

/-- The two-tier dictionary consultation: proper nouns first, then the
exception words (`convert_compound_word` lines 458–461 / `convert_word`
lines 372–378). -/
def dictBoth (k : List Char) : Option (List Char) :=
  match dictFind PROPER_NOUNS k with
  | some v => some v
  | none => dictFind COMMON_WORDS k

/-- The action of the punctuation pass on a single character: the value
stored for it in the punctuation table, if any, else the character
itself. -/
def punctLookup (c : Char) : Char :=
  match PUNCTUATION.find? (fun p => p.1 == c) with
  | some p => p.2
  | none => c

/-! ## Word classifier -/

/-- Result of `get_initial_harmony` (the strings `'back'` / `'front'`). -/
inductive Harmony where
  | back : Harmony
  | front : Harmony
deriving DecidableEq

/-- The first-vowel scan `for char in ...: if char in FRONT_VOWELS: return
'front' elif char in BACK_VOWELS: return 'back'` (shared by the root scan
and the standard scan). -/
def scanFB : List Char → Option Harmony
  | [] => none
  | c :: rest =>
    if FRONT_VOWELS.contains c then some .front
    else if BACK_VOWELS.contains c then some .back
    else scanFB rest

/-- The `for prefix in self.SOFT_PREFIXES_WITH_HARD_ROOT` loop of
`get_initial_harmony`: on a matching, strictly shorter prefix, scan the
root's vowels; if the root has no vowel the loop continues. -/
def softRootScan : List String → List Char → Option Harmony
  | [], _ => none
  | p :: ps, wl =>
    if p.toList.isPrefixOf wl ∧ p.toList.length < wl.length then
      match scanFB (wl.drop p.toList.length) with
      | some h => some h
      | none => softRootScan ps wl
    else softRootScan ps wl

/-- `get_initial_harmony` (lines 199–241). -/
def getInitialHarmony (word : List Char) : Harmony :=
  let wl := strLower word
  if wl.any (fun c => c == 'қ' || c == 'ғ') then .back
  else if wl.any (fun c => c == 'к' || c == 'г') then .front
  else if strIn I_INITIAL_NATIVE_WORDS wl then .front
  else
    match softRootScan SOFT_PREFIXES_WITH_HARD_ROOT wl with
    | some h => h
    | none =>
      match scanFB wl with
      | some h => h
      | none => .back

/-- `is_i_initial_native`. -/
def isIInitialNative (word : List Char) : Bool :=
  strIn I_INITIAL_NATIVE_WORDS (strLower word)

/-- Python's `str.replace` for a two-character pattern replaced by one
character, scanning left to right over non-overlapping occurrences (used
for `replace('иі','_').replace('іи','_')`). -/
def replaceDigraph (a b r : Char) : List Char → List Char
  | x :: y :: rest =>
    if x = a ∧ y = b then r :: replaceDigraph a b r rest
    else x :: replaceDigraph a b r (y :: rest)
  | l => l

/-- `re.search(r'[аәеоөұүіыиэ]{2,}', s)` as a Bool: two adjacent characters
of the class occur. -/
def hasAdjacentPair : List Char → Bool
  | a :: b :: rest =>
    (hiatusVowels.contains a && hiatusVowels.contains b) || hasAdjacentPair (b :: rest)
  | _ => false

/-- `char.isalpha()` on the alphabets in scope: basic Latin letters and the
Unicode Cyrillic block (U+0400–U+04FF minus its non-letter codepoints
U+0482–U+0489). -/
def pyIsAlpha (c : Char) : Bool :=
  ('a' ≤ c && c ≤ 'z') || ('A' ≤ c && c ≤ 'Z') ||
  (0x400 ≤ c.toNat && c.toNat ≤ 0x481) || (0x48A ≤ c.toNat && c.toNat ≤ 0x4FF)

/-- The triple-consonant counter of `is_loanword` (counter `k`, reset on a
vowel or non-letter, firing as soon as it reaches 3). -/
def threeConsAux : Nat → List Char → Bool
  | _, [] => false
  | k, c :: rest =>
    if pyIsAlpha c && !(countVowels.contains c) then
      if k + 1 ≥ 3 then true else threeConsAux (k + 1) rest
    else threeConsAux 0 rest

/-- `is_loanword` (lines 247–290). -/
def isLoanword (word : List Char) : Bool :=
  let wl := strLower word
  if strIn I_INITIAL_NATIVE_WORDS wl then false
  else if word.any (fun c => LOANWORD_CONSONANTS.contains c) then true
  else if LOANWORD_SUFFIXES.any (fun s => s.toList.isSuffixOf wl) then true
  else
    let t := replaceDigraph 'и' 'і' '_' wl
    let t2 := replaceDigraph 'і' 'и' '_' t
    if hasAdjacentPair t2 then true
    else threeConsAux 0 wl

/-! ## Glottal-marker post-processor (`apply_hamza_rule`) -/

/-- `arabic_word.replace(self.HAMZA, '')`: removes every occurrence. -/
def stripH (r : List Char) : List Char := r.filter (fun c => c != HAMZA)

/-- `if not arabic_word.startswith(self.HAMZA): return self.HAMZA +
arabic_word` / `return arabic_word`. -/
def ensureH (r : List Char) : List Char :=
  if r.head? == some HAMZA then r else HAMZA :: r

/-- `word_lower and word_lower[0] in 'өүі'` (false on the empty word, the
Python truthiness guard). -/
def firstIsHighFront (wl : List Char) : Bool :=
  match wl.head? with
  | some c => c == 'ө' || c == 'ү' || c == 'і'
  | none => false

/-- `apply_hamza_rule` (lines 300–364), the priority cascade. -/
def applyHamzaRule (arabicWord word : List Char) : List Char :=
  let wl := strLower word
  if isLoanword word then stripH arabicWord
  else if isIInitialNative word then ensureH arabicWord
  else if word.any (fun c => "кКгГ".toList.contains c) then stripH arabicWord
  else if wl.contains 'е' || word.contains 'Е' then
    if firstIsHighFront wl then ensureH arabicWord else stripH arabicWord
  else if firstIsHighFront wl then ensureH arabicWord
  else
    match getInitialHarmony word with
    | .back => stripH arabicWord
    | .front => ensureH arabicWord

/-! ## Character transcriber (the `while i < len(word)` loop of
`convert_word`) -/

/-- The output the loop body appends for the character `c`, given the
loanword flag of the whole word and the previous raw source character
`prev` (`word[i-1]`, `none` при `i = 0`).  The `COMBINATIONS` access is
total here because the branch guard pins `cl` to one of its keys; the
`Option`-valued model `trE` below keeps the raw access. -/
def emit (loan : Bool) (prev : Option Char) (c : Char) : List Char :=
  let cl := charLower c
  if cl = 'ь' ∨ cl = 'ъ' then []
  else if cl = 'ю' then (if loan then "ۋ".toList else "يۋ".toList)
  else if cl = 'ц' ∨ cl = 'щ' ∨ cl = 'ё' then (mapFind COMBINATIONS cl).getD []
  else if cl = 'я' then
    match prev with
    | some p => if charLower p = 'и' then "ا".toList else "يا".toList
    | none => "يا".toList
  else if cl = 'и' then "ىي".toList
  else
    match mapFind CONSONANTS c with
    | some v => v
    | none =>
      match mapFind VOWELS c with
      | some v => v
      | none => [c]

/-- The scan, carrying the previous raw source character. -/
def transcribeAux (loan : Bool) : Option Char → List Char → List Char
  | _, [] => []
  | prev, c :: rest => emit loan prev c ++ transcribeAux loan (some c) rest

/-- The unmarked rendering `''.join(result)` produced by the loop. -/
def rawTranscribe (loan : Bool) (w : List Char) : List Char :=
  transcribeAux loan none w

/-! ## Per-word and compound conversion -/

/-- `convert_word` (lines 366–449). -/
def convertWord (word : List Char) : List Char :=
  if word.isEmpty then word
  else
    let wl := strLower word
    match dictFind PROPER_NOUNS wl with
    | some v => v
    | none =>
      match dictFind COMMON_WORDS wl with
      | some v => v
      | none => applyHamzaRule (rawTranscribe (isLoanword word) word) word

/-- `word.split('-')`. -/
def splitHyphen : List Char → List (List Char)
  | [] => [[]]
  | c :: rest =>
    if c = '-' then [] :: splitHyphen rest
    else
      match splitHyphen rest with
      | p :: ps => (c :: p) :: ps
      | [] => [[c]]

/-- `'-'.join(parts)`. -/
def joinHyphen : List (List Char) → List Char
  | [] => []
  | [p] => p
  | p :: ps => p ++ '-' :: joinHyphen ps

/-- `convert_compound_word` (lines 451–470). -/
def convertCompoundWord (word : List Char) : List Char :=
  if word.isEmpty then word
  else
    let wl := strLower word
    match dictFind PROPER_NOUNS wl with
    | some v => v
    | none =>
      match dictFind COMMON_WORDS wl with
      | some v => v
      | none =>
        if word.contains '-' then joinHyphen ((splitHyphen word).map convertWord)
        else convertWord word

/-! ## Segmenter / orchestrator (`convert`) -/

/-- The character class `[а-яәіңғүұқөһёэъьА-ЯӘІҢҒҮҰҚӨҺЁЭЪЬ]` of the
segmentation pattern (э, ъ, ь and their capitals already lie inside the
а–я and А–Я ranges). -/
def isCyrLetter (c : Char) : Bool :=
  (0x430 ≤ c.toNat && c.toNat ≤ 0x44F) || (0x410 ≤ c.toNat && c.toNat ≤ 0x42F) ||
  "әіңғүұқөһёӘІҢҒҮҰҚӨҺЁ".toList.contains c

/-- The punctuation pass: `for cyr, arab in self.PUNCTUATION.items():
text = text.replace(cyr, arab)` — each entry is a single-character
replacement applied to the whole text in insertion order. -/
def applyPunct (s : List Char) : List Char :=
  PUNCTUATION.foldl (fun t p => t.map (fun c => if c = p.1 then p.2 else c)) s

/-- Dispatch a finished letter run (empty accumulator = no pending run). -/
def flushRun (acc : List Char) : List Char :=
  if acc.isEmpty then [] else convertCompoundWord acc

/-- One-character lookahead: does the remaining input start with a letter?
(This is the check the regex group `(?:-[L]+)*` performs after a hyphen.) -/
def nextIsCyr : List Char → Bool
  | r :: _ => isCyrLetter r
  | [] => false

/-- Scanner reproducing `re.sub(pattern, ..., text)` for the pattern
`[L]+(?:-[L]+)*`: letters extend the pending run; a hyphen extends it only
when a run is pending and the next character is a letter (the one-character
lookahead that the regex's `(?:-[L]+)*` group performs); anything else
flushes the run and is copied verbatim. -/
def goText (acc : List Char) : List Char → List Char
  | [] => flushRun acc
  | c :: rest =>
    if isCyrLetter c then goText (acc ++ [c]) rest
    else if c == '-' && !acc.isEmpty && nextIsCyr rest then
      goText (acc ++ [c]) rest
    else flushRun acc ++ c :: goText [] rest

/-- `convert` (lines 472–480). -/
def convert (s : List Char) : List Char := goText [] (applyPunct s)

/-! Whole-string membership in the run language `[L]+(?:-[L]+)*`:
`isRun w` states that `w` is exactly one maximal word run (the unit the
segmenter feeds to `convert_compound_word`); `isRunTail` accepts the
language `[L]*(-[L]+)*`, the legal continuations after the first letter. -/
mutual

def isRun : List Char → Bool
  | [] => false
  | c :: rest => isCyrLetter c && isRunTail rest

def isRunTail : List Char → Bool
  | [] => true
  | c :: rest =>
    if isCyrLetter c then isRunTail rest
    else if c = '-' then isRun rest
    else false

end

/-! ## The `Option`-valued model

A second copy of the pipeline in which every raw Python operation that can
throw — `word[i]`, `word[i-1]`, `word_lower[0]`, `self.COMBINATIONS[...]` —
returns `none` instead of raising.  The totality claim is settled by
proving this model never returns `none` and agrees with the pure model. -/

/-- The `while i < len(word)` loop with raw indexing: `word[i]` is read
under the loop guard, `word[i-1]` under the `i > 0` guard, and the
`COMBINATIONS` dictionary access is unguarded, exactly as in the source. -/
def trE (loan : Bool) (w : List Char) (i : Nat) : Option (List Char) :=
  if h : i < w.length then
    let c := w.get ⟨i, h⟩
    let cl := charLower c
    if cl = 'ь' ∨ cl = 'ъ' then trE loan w (i + 1)
    else if cl = 'ю' then
      (trE loan w (i + 1)).map (fun t => (if loan then "ۋ".toList else "يۋ".toList) ++ t)
    else if cl = 'ц' ∨ cl = 'щ' ∨ cl = 'ё' then
      match mapFind COMBINATIONS cl with
      | some v => (trE loan w (i + 1)).map (fun t => v ++ t)
      | none => none
    else if cl = 'я' then
      if 0 < i then
        match w.get? (i - 1) with
        | some p =>
          (trE loan w (i + 1)).map
            (fun t => (if charLower p = 'и' then "ا".toList else "يا".toList) ++ t)
        | none => none
      else (trE loan w (i + 1)).map (fun t => "يا".toList ++ t)
    else if cl = 'и' then (trE loan w (i + 1)).map (fun t => "ىي".toList ++ t)
    else
      match mapFind CONSONANTS c with
      | some v => (trE loan w (i + 1)).map (fun t => v ++ t)
      | none =>
        match mapFind VOWELS c with
        | some v => (trE loan w (i + 1)).map (fun t => v ++ t)
        | none => (trE loan w (i + 1)).map (fun t => c :: t)
  else some []
termination_by w.length - i

/-- `word_lower and word_lower[0] in 'өүі'` with the `word_lower[0]` read
performed as raw indexing under the truthiness guard. -/
def firstHighFrontE (wl : List Char) : Option Bool :=
  if wl.isEmpty then some false
  else (wl.get? 0).map (fun c => decide (c = 'ө' ∨ c = 'ү' ∨ c = 'і'))

/-- `apply_hamza_rule` with the two `word_lower[0]` reads performed as raw
indexing under their truthiness guards. -/
def applyHamzaE (arabicWord word : List Char) : Option (List Char) :=
  let wl := strLower word
  if isLoanword word then some (stripH arabicWord)
  else if isIInitialNative word then some (ensureH arabicWord)
  else if word.any (fun c => "кКгГ".toList.contains c) then some (stripH arabicWord)
  else if wl.contains 'е' || word.contains 'Е' then
    match firstHighFrontE wl with
    | some true => some (ensureH arabicWord)
    | some false => some (stripH arabicWord)
    | none => none
  else
    match firstHighFrontE wl with
    | some true => some (ensureH arabicWord)
    | some false =>
      match getInitialHarmony word with
      | .back => some (stripH arabicWord)
      | .front => some (ensureH arabicWord)
    | none => none

/-- `convert_word` in the fallible model. -/
def convertWordE (word : List Char) : Option (List Char) :=
  if word.isEmpty then some word
  else
    let wl := strLower word
    match dictFind PROPER_NOUNS wl with
    | some v => some v
    | none =>
      match dictFind COMMON_WORDS wl with
      | some v => some v
      | none => (trE (isLoanword word) word 0).bind (fun raw => applyHamzaE raw word)

/-- Conversion of each hyphen part, propagating failure. -/
def mapPartsE : List (List Char) → Option (List (List Char))
  | [] => some []
  | x :: xs =>
    match convertWordE x with
    | some y => (mapPartsE xs).map (fun ys => y :: ys)
    | none => none

/-- `convert_compound_word` in the fallible model. -/
def convertCompoundE (word : List Char) : Option (List Char) :=
  if word.isEmpty then some word
  else
    let wl := strLower word
    match dictFind PROPER_NOUNS wl with
    | some v => some v
    | none =>
      match dictFind COMMON_WORDS wl with
      | some v => some v
      | none =>
        if word.contains '-' then (mapPartsE (splitHyphen word)).map joinHyphen
        else convertWordE word

def flushRunE (acc : List Char) : Option (List Char) :=
  if acc.isEmpty then some [] else convertCompoundE acc

def goTextE (acc : List Char) : List Char → Option (List Char)
  | [] => flushRunE acc
  | c :: rest =>
    if isCyrLetter c then goTextE (acc ++ [c]) rest
    else if c == '-' && !acc.isEmpty && nextIsCyr rest then
      goTextE (acc ++ [c]) rest
    else
      (flushRunE acc).bind (fun f => (goTextE [] rest).map (fun t => f ++ c :: t))

/-- `convert` in the fallible model. -/
def convertE (s : List Char) : Option (List Char) := goTextE [] (applyPunct s)

example : convert "мектеп".toList = "مەكتەپ".toList := by decide
example : convert "қазақстан, сәлем!".toList = "قازاقستان، سالەم!".toList := by decide
example : convert "бір".toList = "ٴبىر".toList := by decide
example : convert "нью-йорк".toList = "نىيۋ-يورك".toList := by decide
example : convert "abc 123".toList = "abc 123".toList := by decide

/-! ## Case-folding lemmas -/

lemma charLower_spec (c : Char) :
    (charLower c = c) ∨ (∃ p, p ∈ lowerPairs ∧ p.1 = c ∧ charLower c = p.2) := by
  rcases h : lowerPairs.find? (fun p => p.1 == c) with _ | p
  · left
    unfold charLower
    rw [h]
  · right
    have hb : (p.1 == c) = true := by simpa using List.find?_some h
    refine ⟨p, List.mem_of_find?_eq_some h, eq_of_beq hb, ?_⟩
    unfold charLower
    rw [h]

set_option maxRecDepth 40000 in
lemma lowerPairs_value_not_key :
    ∀ p ∈ lowerPairs, ∀ q ∈ lowerPairs, q.1 ≠ p.2 := by decide

lemma charLower_of_not_key {c : Char} (h : ∀ q ∈ lowerPairs, q.1 ≠ c) :
    charLower c = c := by
  unfold charLower
  have hn : lowerPairs.find? (fun p => p.1 == c) = none := by
    rw [List.find?_eq_none]
    intro q hq
    simp [h q hq]
  rw [hn]

lemma charLower_idem (c : Char) : charLower (charLower c) = charLower c := by
  rcases charLower_spec c with hc | ⟨p, hp, _, hv⟩
  · simp [hc]
  · rw [hv]
    exact charLower_of_not_key (fun q hq => lowerPairs_value_not_key p hp q hq)

lemma strLower_idem (w : List Char) : strLower (strLower w) = strLower w := by
  induction w with
  | nil => rfl
  | cons c rest ih =>
    simp only [strLower, List.map_cons] at *
    rw [charLower_idem]
    exact congrArg _ (by simpa [strLower] using ih)

lemma loanCons_contains_charLower (c : Char) :
    LOANWORD_CONSONANTS.contains (charLower c) = LOANWORD_CONSONANTS.contains c := by
  rcases charLower_spec c with hc | ⟨p, hp, hk, hv⟩
  · rw [hc]
  · have key : ∀ q ∈ lowerPairs,
        LOANWORD_CONSONANTS.contains q.2 = LOANWORD_CONSONANTS.contains q.1 := by decide
    rw [hv, ← hk]
    exact key p hp

lemma any_loanCons_lower (w : List Char) :
    (strLower w).any (fun c => LOANWORD_CONSONANTS.contains c)
      = w.any (fun c => LOANWORD_CONSONANTS.contains c) := by
  induction w with
  | nil => rfl
  | cons c rest ih =>
    simp only [strLower, List.map_cons, List.any_cons] at *
    rw [loanCons_contains_charLower, ih]

/-- The loanword predicate is case-insensitive: it only reads the
case-folded word (the raw-word consonant test uses a case-closed set). -/
lemma isLoanword_lower (w : List Char) : isLoanword (strLower w) = isLoanword w := by
  simp only [isLoanword]
  rw [strLower_idem, any_loanCons_lower]

/-! ## Punctuation lemmas -/

lemma applyPunct_cons (c : Char) (rest : List Char) :
    applyPunct (c :: rest) = punctLookup c :: applyPunct rest := by
  by_cases h1 : c = ','
  · subst h1; rfl
  by_cases h2 : c = '.'
  · subst h2; rfl
  by_cases h3 : c = ':'
  · subst h3; rfl
  by_cases h4 : c = ';'
  · subst h4; rfl
  by_cases h5 : c = '?'
  · subst h5; rfl
  by_cases h6 : c = '!'
  · subst h6; rfl
  have e : punctLookup c = c := by
    have b1 : (',' == c) = false := beq_eq_false_iff_ne.mpr (Ne.symm h1)
    have b2 : ('.' == c) = false := beq_eq_false_iff_ne.mpr (Ne.symm h2)
    have b3 : (':' == c) = false := beq_eq_false_iff_ne.mpr (Ne.symm h3)
    have b4 : (';' == c) = false := beq_eq_false_iff_ne.mpr (Ne.symm h4)
    have b5 : ('?' == c) = false := beq_eq_false_iff_ne.mpr (Ne.symm h5)
    have b6 : ('!' == c) = false := beq_eq_false_iff_ne.mpr (Ne.symm h6)
    simp [punctLookup, PUNCTUATION, List.find?, b1, b2, b3, b4, b5, b6]
  rw [e]
  simp [applyPunct, PUNCTUATION, h1, h2, h3, h4, h5, h6]

lemma applyPunct_nil : applyPunct [] = [] := rfl

/-- The punctuation pass is exactly the per-character table substitution. -/
lemma applyPunct_eq_map (s : List Char) : applyPunct s = s.map punctLookup := by
  induction s with
  | nil => rfl
  | cons c rest ih => rw [applyPunct_cons, ih, List.map_cons]

lemma isCyrLetter_toNat_ge (c : Char) (h : isCyrLetter c = true) : 0x401 ≤ c.toNat := by
  simp only [isCyrLetter, Bool.or_eq_true, Bool.and_eq_true, decide_eq_true_eq] at h
  rcases h with (⟨h1, h2⟩ | ⟨h1, h2⟩) | h3
  · omega
  · omega
  · have hm : c ∈ "әіңғүұқөһёӘІҢҒҮҰҚӨҺЁ".toList := by
      simpa using h3
    fin_cases hm <;> decide

lemma punctLookup_of_cyr (c : Char) (h : isCyrLetter c = true) : punctLookup c = c := by
  have hg := isCyrLetter_toNat_ge c h
  have ne : ∀ a : Char, a.toNat < 0x401 → (a == c) = false := by
    intro a ha
    rw [beq_eq_false_iff_ne]
    intro e
    rw [e] at ha
    omega
  simp [punctLookup, PUNCTUATION, List.find?,
    ne ',' (by decide), ne '.' (by decide), ne ':' (by decide),
    ne ';' (by decide), ne '?' (by decide), ne '!' (by decide)]

/-! ## Segmentation lemmas: a whole run is fed to `convert_compound_word` -/

lemma run_chars (w : List Char) :
    (isRunTail w = true → ∀ c ∈ w, isCyrLetter c = true ∨ c = '-') ∧
    (isRun w = true → ∀ c ∈ w, isCyrLetter c = true ∨ c = '-') := by
  induction w with
  | nil =>
    constructor <;> (intro _ c hc; cases hc)
  | cons a rest ih =>
    constructor
    · intro h c hc
      by_cases ha : isCyrLetter a = true
      · have h' : isRunTail rest = true := by simpa [isRunTail, ha] using h
        rcases List.mem_cons.mp hc with hc | hc
        · exact Or.inl (hc ▸ ha)
        · exact ih.1 h' c hc
      · by_cases ha2 : a = '-'
        · have h' : isRun rest = true := by simpa [isRunTail, ha, ha2] using h
          rcases List.mem_cons.mp hc with hc | hc
          · exact Or.inr (hc ▸ ha2)
          · exact ih.2 h' c hc
        · simp [isRunTail, ha, ha2] at h
    · intro h c hc
      have h' : isCyrLetter a = true ∧ isRunTail rest = true := by
        simpa [isRun, Bool.and_eq_true] using h
      rcases List.mem_cons.mp hc with hc | hc
      · exact Or.inl (hc ▸ h'.1)
      · exact ih.1 h'.2 c hc

lemma map_punctLookup_id :
    ∀ w : List Char, (∀ c ∈ w, isCyrLetter c = true ∨ c = '-') →
      w.map punctLookup = w := by
  intro w
  induction w with
  | nil => intro _; rfl
  | cons a rest ih =>
    intro hc
    rw [List.map_cons]
    have ha : punctLookup a = a := by
      rcases hc a (by simp) with h1 | h1
      · exact punctLookup_of_cyr a h1
      · rw [h1]; rfl
    rw [ha, ih (fun c h => hc c (by simp [h]))]

lemma applyPunct_of_run (w : List Char) (h : isRun w = true) : applyPunct w = w := by
  rw [applyPunct_eq_map]
  exact map_punctLookup_id w ((run_chars w).2 h)

lemma goText_nil (acc : List Char) : goText acc [] = flushRun acc := rfl

lemma goText_cons (acc : List Char) (c : Char) (rest : List Char) :
    goText acc (c :: rest) =
      if isCyrLetter c then goText (acc ++ [c]) rest
      else if c == '-' && !acc.isEmpty && nextIsCyr rest then
        goText (acc ++ [c]) rest
      else flushRun acc ++ c :: goText [] rest := rfl

lemma goText_run_tail :
    ∀ w acc, acc ≠ [] → isRunTail w = true →
      goText acc w = convertCompoundWord (acc ++ w) := by
  intro w
  induction w with
  | nil =>
    intro acc ha _
    cases acc with
    | nil => exact absurd rfl ha
    | cons x xs => simp [goText, flushRun]
  | cons c rest ih =>
    intro acc ha ht
    by_cases hc : isCyrLetter c = true
    · have ht' : isRunTail rest = true := by simpa [isRunTail, hc] using ht
      rw [goText_cons, if_pos hc, ih (acc ++ [c]) (by simp) ht']
      simp
    · by_cases hh : c = '-'
      · subst hh
        have hr : isRun rest = true := by simpa [isRunTail, hc] using ht
        cases rest with
        | nil => simp [isRun] at hr
        | cons r rest2 =>
          have hcr : isCyrLetter r = true ∧ isRunTail rest2 = true := by
            simpa [isRun, Bool.and_eq_true] using hr
          have ht2 : isRunTail (r :: rest2) = true := by simp [isRunTail, hcr.1, hcr.2]
          cases acc with
          | nil => exact absurd rfl ha
          | cons x xs =>
            rw [goText_cons, if_neg (by simp [hc]), if_pos (by simp [nextIsCyr, hcr.1]),
              ih ((x :: xs) ++ ['-']) (by simp) ht2]
            simp
      · simp [isRunTail, hc, hh] at ht

/-- On a complete run, `convert` is the dictionary/compound dispatch: the
punctuation pass leaves the run unchanged and the scanner consumes it
whole, exactly as `re.sub`'s single maximal match does. -/
lemma convert_of_run (w : List Char) (h : isRun w = true) :
    convert w = convertCompoundWord w := by
  rw [convert, applyPunct_of_run w h]
  cases w with
  | nil => simp [isRun] at h
  | cons c rest =>
    have h' : isCyrLetter c = true ∧ isRunTail rest = true := by
      simpa [isRun, Bool.and_eq_true] using h
    rw [goText_cons, if_pos h'.1]
    simpa using goText_run_tail rest [c] (by simp) h'.2

/-! ## Marker helpers -/

lemma stripH_idem (r : List Char) : stripH (stripH r) = stripH r := by
  simp [stripH, List.filter_filter]

lemma ensureH_idem (r : List Char) : ensureH (ensureH r) = ensureH r := by
  unfold ensureH
  by_cases h : r.head? == some HAMZA
  · simp [h]
  · simp [h]

lemma stripH_no_hamza (r : List Char) : (stripH r).contains HAMZA = false := by
  induction r with
  | nil => rfl
  | cons c rest ih =>
    by_cases h : c = HAMZA
    · rw [show stripH (c :: rest) = stripH rest from by simp [stripH, List.filter_cons, h]]
      exact ih
    · have hb : (c != HAMZA) = true := by simp [h]
      simp only [stripH, List.filter_cons, hb, if_pos] at ih ⊢
      simp [List.contains_cons, Ne.symm h, ih]

lemma ensureH_head (r : List Char) : (ensureH r).head? = some HAMZA := by
  unfold ensureH
  by_cases h : r.head? == some HAMZA
  · rw [if_pos h]
    exact eq_of_beq h
  · rw [if_neg h]
    rfl

/-! ## Dictionary lookup specifications -/

lemma dictFind_spec {d : List (String × String)} {k v : List Char}
    (h : dictFind d k = some v) :
    ∃ p ∈ d, p.1.toList = k ∧ p.2.toList = v := by
  rcases hf : d.find? (fun p => p.1.toList == k) with _ | p
  · rw [dictFind, hf] at h
    cases h
  · rw [dictFind, hf] at h
    have hb : (p.1.toList == k) = true := by simpa using List.find?_some hf
    exact ⟨p, List.mem_of_find?_eq_some hf, eq_of_beq hb, by simpa using h⟩

lemma proper_values_no_hamza :
    ∀ p ∈ PROPER_NOUNS, (p.2.toList).contains HAMZA = false := by decide

set_option maxRecDepth 20000 in
lemma common_loan_values_no_hamza :
    ∀ p ∈ COMMON_WORDS, isLoanword p.1.toList = true →
      (p.2.toList).contains HAMZA = false := by decide

/-! ## Per-character emission lemmas -/

lemma emit_ya (loan : Bool) (prev : Option Char) (a : Char)
    (hy : charLower a = 'я') :
    emit loan prev a =
      match prev with
      | some p => if charLower p = 'и' then "ا".toList else "يا".toList
      | none => "يا".toList := by
  simp only [emit, hy]
  simp

lemma emit_i (loan : Bool) (prev : Option Char) (a : Char)
    (hi : charLower a = 'и') :
    emit loan prev a = "ىي".toList := by
  simp only [emit, hi]
  simp

/-- Decomposing the scan at an append: the right part sees, as its initial
lookbehind, the last raw character of the left part. -/
lemma transcribeAux_append (loan : Bool) (prev : Option Char) (u v : List Char) :
    transcribeAux loan prev (u ++ v) =
      transcribeAux loan prev u ++ transcribeAux loan (u.getLast?.or prev) v := by
  induction u generalizing prev with
  | nil => simp [transcribeAux, Option.or]
  | cons c rest ih =>
    simp only [List.cons_append, transcribeAux, List.append_assoc, List.append_eq]
    rw [ih (some c)]
    cases rest with
    | nil => simp [Option.or]
    | cons d ds =>
      rw [List.getLast?_cons_cons]
      cases hl : (d :: ds).getLast? with
      | none =>
        exact absurd (List.getLast?_eq_none_iff.mp hl) (by simp)
      | some x => rfl

/-! ## Equivalence of the fallible model with the pure model -/

lemma emit_soft (loan : Bool) (prev : Option Char) (a : Char)
    (h : charLower a = 'ь' ∨ charLower a = 'ъ') : emit loan prev a = [] := by
  simp only [emit]
  rw [if_pos h]

lemma emit_yu (loan : Bool) (prev : Option Char) (a : Char)
    (h : charLower a = 'ю') :
    emit loan prev a = if loan then "ۋ".toList else "يۋ".toList := by
  simp only [emit, h]
  cases loan <;> simp

lemma emit_comb (loan : Bool) (prev : Option Char) (a : Char)
    (h : charLower a = 'ц' ∨ charLower a = 'щ' ∨ charLower a = 'ё') :
    emit loan prev a = (mapFind COMBINATIONS (charLower a)).getD [] := by
  rcases h with h | h | h <;> (simp only [emit, h]; simp)

lemma emit_other (loan : Bool) (prev : Option Char) (a : Char)
    (h1 : ¬(charLower a = 'ь' ∨ charLower a = 'ъ')) (h2 : charLower a ≠ 'ю')
    (h3 : ¬(charLower a = 'ц' ∨ charLower a = 'щ' ∨ charLower a = 'ё'))
    (h4 : charLower a ≠ 'я') (h5 : charLower a ≠ 'и') :
    emit loan prev a =
      match mapFind CONSONANTS a with
      | some v => v
      | none =>
        match mapFind VOWELS a with
        | some v => v
        | none => [a] := by
  simp only [emit]
  rw [if_neg h1, if_neg h2, if_neg h3, if_neg h4, if_neg h5]

lemma trE_step (loan : Bool) (w : List Char) (i : Nat) (h : i < w.length) :
    trE loan w i =
      (if charLower (w.get ⟨i, h⟩) = 'ь' ∨ charLower (w.get ⟨i, h⟩) = 'ъ' then
        trE loan w (i + 1)
      else if charLower (w.get ⟨i, h⟩) = 'ю' then
        (trE loan w (i + 1)).map
          (fun t => (if loan then "ۋ".toList else "يۋ".toList) ++ t)
      else if charLower (w.get ⟨i, h⟩) = 'ц' ∨ charLower (w.get ⟨i, h⟩) = 'щ' ∨
          charLower (w.get ⟨i, h⟩) = 'ё' then
        match mapFind COMBINATIONS (charLower (w.get ⟨i, h⟩)) with
        | some v => (trE loan w (i + 1)).map (fun t => v ++ t)
        | none => none
      else if charLower (w.get ⟨i, h⟩) = 'я' then
        if 0 < i then
          match w.get? (i - 1) with
          | some p =>
            (trE loan w (i + 1)).map
              (fun t => (if charLower p = 'и' then "ا".toList else "يا".toList) ++ t)
          | none => none
        else (trE loan w (i + 1)).map (fun t => "يا".toList ++ t)
      else if charLower (w.get ⟨i, h⟩) = 'и' then
        (trE loan w (i + 1)).map (fun t => "ىي".toList ++ t)
      else
        match mapFind CONSONANTS (w.get ⟨i, h⟩) with
        | some v => (trE loan w (i + 1)).map (fun t => v ++ t)
        | none =>
          match mapFind VOWELS (w.get ⟨i, h⟩) with
          | some v => (trE loan w (i + 1)).map (fun t => v ++ t)
          | none => (trE loan w (i + 1)).map (fun t => (w.get ⟨i, h⟩) :: t)) := by
  rw [trE.eq_def, dif_pos h]

lemma trE_eq_aux (loan : Bool) (w : List Char) :
    ∀ n i, w.length - i ≤ n →
      trE loan w i =
        some (transcribeAux loan (if i = 0 then none else w.get? (i - 1)) (w.drop i)) := by
  intro n
  induction n with
  | zero =>
    intro i hle
    have hge : w.length ≤ i := by omega
    rw [trE.eq_def, dif_neg (by omega), List.drop_eq_nil_of_le hge]
    simp [transcribeAux]
  | succ n ih =>
    intro i hle
    by_cases h : i < w.length
    · have hdrop : w.drop i = w.get ⟨i, h⟩ :: w.drop (i + 1) := by
        rw [List.drop_eq_getElem_cons h, List.get_eq_getElem]
      have hnext : trE loan w (i + 1) =
          some (transcribeAux loan (some (w.get ⟨i, h⟩)) (w.drop (i + 1))) := by
        have hh := ih (i + 1) (by omega)
        rw [if_neg (by omega), Nat.add_sub_cancel, List.get?_eq_get h] at hh
        exact hh
      rw [trE_step loan w i h, hdrop]
      simp only [transcribeAux]
      by_cases h1 : charLower (w.get ⟨i, h⟩) = 'ь' ∨ charLower (w.get ⟨i, h⟩) = 'ъ'
      · rw [if_pos h1, hnext, emit_soft loan _ _ h1, List.nil_append]
      rw [if_neg h1]
      by_cases h2 : charLower (w.get ⟨i, h⟩) = 'ю'
      · rw [if_pos h2, hnext, emit_yu loan _ _ h2]
        rfl
      rw [if_neg h2]
      by_cases h3 : charLower (w.get ⟨i, h⟩) = 'ц' ∨ charLower (w.get ⟨i, h⟩) = 'щ' ∨
          charLower (w.get ⟨i, h⟩) = 'ё'
      · have hcomb : ∃ v, mapFind COMBINATIONS (charLower (w.get ⟨i, h⟩)) = some v := by
          rcases h3 with h3 | h3 | h3 <;> rw [h3] <;> exact ⟨_, rfl⟩
        rcases hcomb with ⟨v, hv⟩
        rw [if_pos h3, hv, hnext, emit_comb loan _ _ h3, hv]
        rfl
      rw [if_neg h3]
      by_cases h4 : charLower (w.get ⟨i, h⟩) = 'я'
      · rw [if_pos h4, emit_ya loan _ _ h4]
        by_cases hz : 0 < i
        · have h0 : ¬(i = 0) := by omega
          have hprev : i - 1 < w.length := by omega
          rw [if_pos hz, List.get?_eq_get hprev, hnext, if_neg h0]
          rfl
        · have h0 : i = 0 := by omega
          rw [if_neg hz, hnext, if_pos h0]
          rfl
      rw [if_neg h4]
      by_cases h5 : charLower (w.get ⟨i, h⟩) = 'и'
      · rw [if_pos h5, hnext, emit_i loan _ _ h5]
        rfl
      rw [if_neg h5, emit_other loan _ _ h1 h2 h3 h4 h5, hnext]
      rcases hc : mapFind CONSONANTS (w.get ⟨i, h⟩) with _ | v
      · rcases hvw : mapFind VOWELS (w.get ⟨i, h⟩) with _ | v
        · rfl
        · rfl
      · rfl
    · have hge : w.length ≤ i := by omega
      rw [trE.eq_def, dif_neg (by omega), List.drop_eq_nil_of_le hge]
      simp [transcribeAux]

/-- The loop with raw indexing never fails and computes `rawTranscribe`. -/
lemma trE_eq (loan : Bool) (w : List Char) :
    trE loan w 0 = some (rawTranscribe loan w) := by
  have := trE_eq_aux loan w w.length 0 (by omega)
  rw [if_pos rfl] at this
  simpa [rawTranscribe] using this

lemma firstHighFrontE_eq (wl : List Char) :
    firstHighFrontE wl = some (firstIsHighFront wl) := by
  cases wl with
  | nil => rfl
  | cons c0 tl =>
    by_cases h1 : c0 = 'ө'
    · subst h1; rfl
    by_cases h2 : c0 = 'ү'
    · subst h2; rfl
    by_cases h3 : c0 = 'і'
    · subst h3; rfl
    simp [firstHighFrontE, firstIsHighFront, List.get?_cons_zero, h1, h2, h3]

lemma applyHamzaE_eq (r w : List Char) :
    applyHamzaE r w = some (applyHamzaRule r w) := by
  simp only [applyHamzaE, applyHamzaRule, firstHighFrontE_eq]
  cases hf : firstIsHighFront (strLower w) <;>
    cases hg : getInitialHarmony w <;>
      split_ifs <;> simp_all

lemma convertWordE_eq (w : List Char) : convertWordE w = some (convertWord w) := by
  simp only [convertWordE, convertWord]
  by_cases he : w.isEmpty = true
  · simp [he]
  rw [if_neg he, if_neg he]
  rcases hp : dictFind PROPER_NOUNS (strLower w) with _ | pv
  · rcases hc : dictFind COMMON_WORDS (strLower w) with _ | cv
    · rw [trE_eq]
      simpa using applyHamzaE_eq (rawTranscribe (isLoanword w) w) w
    · rfl
  · rfl

lemma mapPartsE_eq (l : List (List Char)) :
    mapPartsE l = some (l.map convertWord) := by
  induction l with
  | nil => rfl
  | cons x xs ih => simp [mapPartsE, convertWordE_eq, ih]

lemma convertCompoundE_eq (w : List Char) :
    convertCompoundE w = some (convertCompoundWord w) := by
  simp only [convertCompoundE, convertCompoundWord]
  by_cases he : w.isEmpty = true
  · simp [he]
  rw [if_neg he, if_neg he]
  rcases hp : dictFind PROPER_NOUNS (strLower w) with _ | pv
  · rcases hc : dictFind COMMON_WORDS (strLower w) with _ | cv
    · by_cases hh : '-' ∈ w
      · simp [hh, mapPartsE_eq]
      · simp [hh, convertWordE_eq]
    · rfl
  · rfl

lemma flushRunE_eq (acc : List Char) : flushRunE acc = some (flushRun acc) := by
  by_cases he : acc.isEmpty = true
  · simp [flushRunE, flushRun, he]
  · simp [flushRunE, flushRun, he, convertCompoundE_eq]

lemma goTextE_eq : ∀ (cs acc : List Char), goTextE acc cs = some (goText acc cs) := by
  intro cs
  induction cs with
  | nil =>
    intro acc
    rw [goText_nil]
    exact flushRunE_eq acc
  | cons c rest ih =>
    intro acc
    rw [goText_cons]
    by_cases h1 : isCyrLetter c = true
    · rw [if_pos h1]
      simpa [goTextE, h1] using ih (acc ++ [c])
    · rw [if_neg h1]
      by_cases h2 : (c == '-' && !acc.isEmpty && nextIsCyr rest) = true
      · rw [if_pos h2]
        simpa [goTextE, h1, h2] using ih (acc ++ [c])
      · rw [if_neg h2]
        simp [goTextE, h1, h2, flushRunE_eq, ih []]

/-! ## Claim theorems -/

lemma applyHamzaRule_cases (r w : List Char) :
    applyHamzaRule r w = stripH r ∨ applyHamzaRule r w = ensureH r := by
  simp only [applyHamzaRule]
  cases hg : getInitialHarmony w <;> split_ifs <;> simp

/-- C9: `convert` is total.  In the fallible model `convertE` — where every
raw Python operation that could raise (`word[i]`, `word[i-1]`,
`word_lower[0]`, the `COMBINATIONS` dictionary access) returns `none`
instead — every input string, including the empty string, mixed-script and
script-free input, yields `some (convert s)`: no input fails, no input is
treated as malformed, and the output is the pure model's defined value. -/
theorem c9_convert_total (s : List Char) : convertE s = some (convert s) := by
  rw [convertE, convert]
  exact goTextE_eq (applyPunct s) []

/-- C5: any word containing the strong back-signaling consonant қ or ғ
(any case, via case folding) is classified `back` regardless of its vowels
and even if it also contains к or г; with no қ/ғ present, a word containing
к or г is classified `front`.  The first conjunct holding unconditionally
and the second being guarded by the absence of қ/ғ is exactly the fixed
first-match-wins priority order of `get_initial_harmony`. -/
theorem c5_signal_consonant_priority (w : List Char) :
    ((strLower w).any (fun c => c == 'қ' || c == 'ғ') = true →
      getInitialHarmony w = Harmony.back) ∧
    ((strLower w).any (fun c => c == 'қ' || c == 'ғ') = false →
      (strLower w).any (fun c => c == 'к' || c == 'г') = true →
      getInitialHarmony w = Harmony.front) := by
  constructor
  · intro h
    simp only [getInitialHarmony]
    rw [if_pos h]
  · intro h1 h2
    simp only [getInitialHarmony]
    rw [if_neg (by simp [h1]), if_pos h2]

theorem c5_signal_consonant_priority_witness :
    getInitialHarmony "кқы".toList = Harmony.back ∧
    getInitialHarmony "кы".toList = Harmony.front :=
  ⟨(c5_signal_consonant_priority _).1 (by decide),
   (c5_signal_consonant_priority _).2 (by decide) (by decide)⟩

/-- C7: the glottal-marker post-processor is idempotent on every raw
target string and source word; a result of the form `HAMZA :: r` can only
arise when `r` did not already begin with the marker (insertion never
doubles the marker); and each of the cascade's four stripping branches —
rule 1 (loanword), rule 3 (к/г present), rule 4's else-arm (е present,
first letter not ө/ү/і) and rule 6 (no е, first letter not ө/ү/і, back
harmony) — leaves no occurrence of the marker anywhere in the output, not
just no leading one. -/
theorem c7_applyMarker_idempotent (r w : List Char) :
    applyHamzaRule (applyHamzaRule r w) w = applyHamzaRule r w ∧
    (applyHamzaRule r w = HAMZA :: r → r.head? ≠ some HAMZA) ∧
    (isLoanword w = true →
      (applyHamzaRule r w).contains HAMZA = false) ∧
    (isLoanword w = false → isIInitialNative w = false →
      w.any (fun c => "кКгГ".toList.contains c) = true →
      (applyHamzaRule r w).contains HAMZA = false) ∧
    (isLoanword w = false → isIInitialNative w = false →
      w.any (fun c => "кКгГ".toList.contains c) = false →
      ((strLower w).contains 'е' || w.contains 'Е') = true →
      firstIsHighFront (strLower w) = false →
      (applyHamzaRule r w).contains HAMZA = false) ∧
    (isLoanword w = false → isIInitialNative w = false →
      w.any (fun c => "кКгГ".toList.contains c) = false →
      ((strLower w).contains 'е' || w.contains 'Е') = false →
      firstIsHighFront (strLower w) = false →
      getInitialHarmony w = Harmony.back →
      (applyHamzaRule r w).contains HAMZA = false) := by
  refine ⟨?_, ?_, ?_, ?_, ?_, ?_⟩
  · simp only [applyHamzaRule]
    cases hg : getInitialHarmony w <;>
      split_ifs <;> simp [stripH_idem, ensureH_idem]
  · intro he hr
    rcases applyHamzaRule_cases r w with hca | hca
    · rw [hca] at he
      have := stripH_no_hamza r
      rw [he] at this
      simp [List.contains_cons] at this
    · rw [hca] at he
      rw [ensureH, if_pos (by simp [hr])] at he
      have : (HAMZA :: r).length = r.length := by rw [← he]
      simp at this
  · intro h1
    simp only [applyHamzaRule]
    rw [if_pos h1]
    exact stripH_no_hamza r
  · intro h1 h2 h3
    simp only [applyHamzaRule]
    rw [if_neg (by simp [h1]), if_neg (by simp [h2]), if_pos h3]
    exact stripH_no_hamza r
  · intro h1 h2 h3 h4 h5
    simp only [applyHamzaRule]
    rw [if_neg (by simp [h1]), if_neg (by simp [h2]),
      if_neg (fun hcon => Bool.noConfusion (h3 ▸ hcon)),
      if_pos h4, if_neg (by simp [h5])]
    exact stripH_no_hamza r
  · intro h1 h2 h3 h4 h5 h6
    simp only [applyHamzaRule]
    rw [if_neg (by simp [h1]), if_neg (by simp [h2]),
      if_neg (fun hcon => Bool.noConfusion (h3 ▸ hcon)),
      if_neg (fun hcon => Bool.noConfusion (h4 ▸ hcon)),
      if_neg (by simp [h5]), h6]
    exact stripH_no_hamza r

theorem c7_applyMarker_idempotent_witness :
    applyHamzaRule (applyHamzaRule "ىس".toList "іс".toList) "іс".toList =
      applyHamzaRule "ىس".toList "іс".toList ∧
    isLoanword "фы".toList = true ∧
    (applyHamzaRule (HAMZA :: "فى".toList) "фы".toList).contains HAMZA = false ∧
    (applyHamzaRule (HAMZA :: "كى".toList) "кы".toList).contains HAMZA = false ∧
    (applyHamzaRule (HAMZA :: "مە".toList) "ме".toList).contains HAMZA = false ∧
    (applyHamzaRule (HAMZA :: "با".toList) "ба".toList).contains HAMZA = false :=
  ⟨(c7_applyMarker_idempotent "ىس".toList "іс".toList).1,
   by decide,
   (c7_applyMarker_idempotent (HAMZA :: "فى".toList) "фы".toList).2.2.1
     (by decide),
   (c7_applyMarker_idempotent (HAMZA :: "كى".toList) "кы".toList).2.2.2.1
     (by decide) (by decide) (by decide),
   (c7_applyMarker_idempotent (HAMZA :: "مە".toList) "ме".toList).2.2.2.2.1
     (by decide) (by decide) (by decide) (by decide) (by decide),
   (c7_applyMarker_idempotent (HAMZA :: "با".toList) "ба".toList).2.2.2.2.2
     (by decide) (by decide) (by decide) (by decide) (by decide) (by decide)⟩

/-- C10: a word whose case-folded form is in the i-initial-native set is
never a loanword — the exclusion is tested before any loanword criterion —
and the marker cascade's rule 2 then guarantees its output starts with the
glottal marker, so such words are never stripped of the marker by the
loanword rule. -/
theorem c10_i_initial_excluded (w : List Char)
    (h : strIn I_INITIAL_NATIVE_WORDS (strLower w) = true) :
    isLoanword w = false ∧
    ∀ r : List Char, (applyHamzaRule r w).head? = some HAMZA := by
  have hl : isLoanword w = false := by
    simp only [isLoanword]
    rw [if_pos h]
  refine ⟨hl, fun r => ?_⟩
  have hn : isIInitialNative w = true := by
    simpa [isIInitialNative] using h
  simp only [applyHamzaRule]
  rw [if_neg (by simp [hl]), if_pos hn]
  exact ensureH_head r

theorem c10_i_initial_excluded_witness :
    strIn I_INITIAL_NATIVE_WORDS (strLower "иық".toList) = true ∧
    hasAdjacentPair (replaceDigraph 'і' 'и' '_'
      (replaceDigraph 'и' 'і' '_' (strLower "иық".toList))) = true ∧
    isLoanword "иық".toList = false ∧
    (applyHamzaRule "ىيىق".toList "иық".toList).head? = some HAMZA :=
  ⟨by decide, by decide, (c10_i_initial_excluded _ (by decide)).1,
   (c10_i_initial_excluded _ (by decide)).2 _⟩

/-- C1: for every word run (hyphens included) whose case-folded form is a
key of the proper-noun table or of the exception-word table — the
proper-noun table consulted first — `convert` returns exactly the stored
value.  (`dictBoth` is that two-tier lookup; per the data model a word is a
run of script letters optionally joined by hyphens, so the handful of keys
containing a space are not words and fall outside the claim.) -/
theorem c1_dictionary_short_circuit (w v : List Char)
    (hrun : isRun w = true) (hdict : dictBoth (strLower w) = some v) :
    convert w = v := by
  cases w with
  | nil => simp [isRun] at hrun
  | cons a l =>
    rw [convert_of_run _ hrun]
    rcases hp : dictFind PROPER_NOUNS (strLower (a :: l)) with _ | pv
    · rcases hc : dictFind COMMON_WORDS (strLower (a :: l)) with _ | cv
      · rw [dictBoth, hp, hc] at hdict
        cases hdict
      · rw [dictBoth, hp, hc] at hdict
        have hv : cv = v := by simpa using hdict
        simp [convertCompoundWord, hp, hc, hv]
    · rw [dictBoth, hp] at hdict
      have hv : pv = v := by simpa using hdict
      simp [convertCompoundWord, hp, hv]

theorem c1_dictionary_short_circuit_witness :
    isRun "Қазақстан".toList = true ∧
    dictBoth (strLower "Қазақстан".toList) = some "قازاقستان".toList ∧
    convert "Қазақстан".toList = "قازاقستان".toList :=
  ⟨by decide, by decide,
   c1_dictionary_short_circuit _ _ (by decide) (by decide)⟩

/-- C6: during transcription, an occurrence of the "ya"-class letter (any
case) emits only the bare vowel unit `ا` when the immediately preceding
raw source character (the last character of the prefix `u`, not any
previously emitted output) case-folds to the neutral letter и, and the
two-unit digraph `يا` otherwise (including word-initially); the letter и
itself (any case) always emits the fixed two-unit sequence `ىي`,
independent of position, neighbours, or the loanword flag. -/
theorem c6_ya_lookbehind (loan : Bool) (u v : List Char) (a : Char) :
    (charLower a = 'я' →
      rawTranscribe loan (u ++ a :: v) =
        rawTranscribe loan u ++
          (match u.getLast? with
           | some p => if charLower p = 'и' then "ا".toList else "يا".toList
           | none => "يا".toList) ++ transcribeAux loan (some a) v) ∧
    (charLower a = 'и' →
      rawTranscribe loan (u ++ a :: v) =
        rawTranscribe loan u ++ "ىي".toList ++ transcribeAux loan (some a) v) := by
  constructor
  · intro hy
    rw [rawTranscribe, rawTranscribe, transcribeAux_append, Option.or_none]
    show _ ++ (emit loan (u.getLast?) a ++ _) = _
    rw [emit_ya loan _ a hy, List.append_assoc]
  · intro hi
    rw [rawTranscribe, rawTranscribe, transcribeAux_append, Option.or_none]
    show _ ++ (emit loan (u.getLast?) a ++ _) = _
    rw [emit_i loan _ a hi, List.append_assoc]

theorem c6_ya_lookbehind_witness :
    charLower 'я' = 'я' ∧ charLower 'Я' = 'я' ∧
    rawTranscribe false ("И".toList ++ 'я' :: "қ".toList) =
      rawTranscribe false "И".toList ++ "ا".toList ++
        transcribeAux false (some 'я') "қ".toList ∧
    rawTranscribe false ("т".toList ++ 'Я' :: ([] : List Char)) =
      rawTranscribe false "т".toList ++ "يا".toList ++
        transcribeAux false (some 'Я') [] ∧
    rawTranscribe false ("тіл".toList ++ 'и' :: "е".toList) =
      rawTranscribe false "тіл".toList ++ "ىي".toList ++
        transcribeAux false (some 'и') "е".toList := by
  refine ⟨rfl, rfl, ?_, ?_, ?_⟩
  · have := (c6_ya_lookbehind false "И".toList "қ".toList 'я').1 rfl
    simpa using this
  · have := (c6_ya_lookbehind false "т".toList [] 'Я').1 rfl
    simpa using this
  · exact (c6_ya_lookbehind false "тіл".toList "е".toList 'и').2 rfl

lemma punctLookup_self (c : Char) (h1 : c ≠ ',') (h2 : c ≠ '.') (h3 : c ≠ ':')
    (h4 : c ≠ ';') (h5 : c ≠ '?') (h6 : c ≠ '!') : punctLookup c = c := by
  have b1 : (',' == c) = false := beq_eq_false_iff_ne.mpr (Ne.symm h1)
  have b2 : ('.' == c) = false := beq_eq_false_iff_ne.mpr (Ne.symm h2)
  have b3 : (':' == c) = false := beq_eq_false_iff_ne.mpr (Ne.symm h3)
  have b4 : (';' == c) = false := beq_eq_false_iff_ne.mpr (Ne.symm h4)
  have b5 : ('?' == c) = false := beq_eq_false_iff_ne.mpr (Ne.symm h5)
  have b6 : ('!' == c) = false := beq_eq_false_iff_ne.mpr (Ne.symm h6)
  simp [punctLookup, PUNCTUATION, List.find?, b1, b2, b3, b4, b5, b6]

lemma punctLookup_not_cyr (b : Char) (h : isCyrLetter b = false) :
    isCyrLetter (punctLookup b) = false := by
  by_cases h1 : b = ','
  · subst h1; decide
  by_cases h2 : b = '.'
  · subst h2; decide
  by_cases h3 : b = ':'
  · subst h3; decide
  by_cases h4 : b = ';'
  · subst h4; decide
  by_cases h5 : b = '?'
  · subst h5; decide
  by_cases h6 : b = '!'
  · subst h6; decide
  rw [punctLookup_self b h1 h2 h3 h4 h5 h6]
  exact h

lemma goText_no_cyr : ∀ t : List Char,
    (∀ c ∈ t, isCyrLetter c = false) → goText [] t = t := by
  intro t
  induction t with
  | nil => intro _; rfl
  | cons c rest ih =>
    intro h
    have hc : isCyrLetter c = false := h c (by simp)
    rw [goText_cons, if_neg (by simp [hc]), if_neg (by simp)]
    simp [flushRun, ih (fun d hd => h d (by simp [hd]))]

/-- C8: a string with no source-script (Cyrillic) letters is returned
unchanged except that every character is replaced by its punctuation-table
value when it has one (`punctLookup`), so digits, Latin letters,
target-script text and unmapped punctuation pass through in their original
order. -/
theorem c8_script_free_passthrough (s : List Char)
    (h : ∀ c ∈ s, isCyrLetter c = false) :
    convert s = s.map punctLookup := by
  rw [convert, applyPunct_eq_map]
  apply goText_no_cyr
  intro c hc
  rcases List.mem_map.mp hc with ⟨b, hb, rfl⟩
  exact punctLookup_not_cyr b (h b hb)

theorem c8_script_free_passthrough_witness :
    (∀ c ∈ "Hello, world? 123!".toList, isCyrLetter c = false) ∧
    convert "Hello, world? 123!".toList = "Hello، world؟ 123!".toList := by
  refine ⟨by decide, ?_⟩
  rw [c8_script_free_passthrough _ (by decide)]
  decide

/-- C2 (corrected): for every hyphen-free word run satisfying the loanword
predicate, the output of `convert` contains no glottal marker — whether the
run is resolved by a dictionary (no stored value of a loanword key contains
the marker) or by the rule pipeline (rule 1 of the cascade strips every
occurrence).  The hyphen-freeness hypothesis is forced by the
counterexample below: a hyphenated run is split and each part is converted
independently, so a loanword run can still produce a marker in a non-loan
part. -/
theorem c2_loanword_no_marker (w : List Char)
    (hrun : isRun w = true) (hnh : w.contains '-' = false)
    (hl : isLoanword w = true) :
    (convert w).contains HAMZA = false := by
  cases w with
  | nil => simp [isRun] at hrun
  | cons a l =>
    rw [convert_of_run _ hrun]
    rcases hp : dictFind PROPER_NOUNS (strLower (a :: l)) with _ | pv
    · rcases hc : dictFind COMMON_WORDS (strLower (a :: l)) with _ | cv
      · simp only [convertCompoundWord, convertWord, hp, hc, List.isEmpty_cons,
          Bool.false_eq_true, if_false, if_neg (show ¬((a :: l).contains '-' = true) from
            fun hcon => Bool.noConfusion (hnh ▸ hcon))]
        simp only [applyHamzaRule]
        rw [if_pos hl]
        exact stripH_no_hamza _
      · obtain ⟨p, hmem, hk, hv⟩ := dictFind_spec hc
        have hlk : isLoanword p.1.toList = true := by
          rw [hk, isLoanword_lower]
          exact hl
        have hno := common_loan_values_no_hamza p hmem hlk
        rw [hv] at hno
        simpa [convertCompoundWord, hp, hc] using hno
    · obtain ⟨p, hmem, _, hv⟩ := dictFind_spec hp
      have hno := proper_values_no_hamza p hmem
      rw [hv] at hno
      simpa [convertCompoundWord, hp] using hno

theorem c2_loanword_no_marker_witness :
    isRun "фы".toList = true ∧ ("фы".toList).contains '-' = false ∧
    isLoanword "фы".toList = true ∧
    (convert "фы".toList).contains HAMZA = false :=
  ⟨by decide, by decide, by decide,
   c2_loanword_no_marker _ (by decide) (by decide) (by decide)⟩

set_option maxRecDepth 20000 in
theorem c2_loanword_no_marker_counterexample :
    isRun "фы-бі".toList = true ∧
    isLoanword "фы-бі".toList = true ∧
    (convert "фы-бі".toList).contains HAMZA = true := by decide

/-- C3 (corrected): a hyphen-free word containing қ or ғ (any case) that is
not a dictionary entry receives no glottal marker, provided additionally
that its case-folded form is not in the i-initial-native exception set and
its first letter does not case-fold to ө, ү or і.  The extra hypotheses are
forced by the counterexample below: the i-initial rule (иық) and the
initial-ө/ү/і rules of the cascade outrank the back-harmony strip, and a
hyphenated run is converted per part. -/
theorem c3_back_consonant_no_marker (w : List Char)
    (hrun : isRun w = true) (hnh : w.contains '-' = false)
    (hq : (strLower w).any (fun c => c == 'қ' || c == 'ғ') = true)
    (hd : dictBoth (strLower w) = none)
    (hni : strIn I_INITIAL_NATIVE_WORDS (strLower w) = false)
    (hfi : firstIsHighFront (strLower w) = false) :
    (convert w).contains HAMZA = false := by
  cases w with
  | nil => simp [isRun] at hrun
  | cons a l =>
    rw [convert_of_run _ hrun]
    have hp : dictFind PROPER_NOUNS (strLower (a :: l)) = none := by
      rcases h : dictFind PROPER_NOUNS (strLower (a :: l)) with _ | pv
      · rfl
      · rw [dictBoth, h] at hd
        cases hd
    have hc : dictFind COMMON_WORDS (strLower (a :: l)) = none := by
      rcases h : dictFind COMMON_WORDS (strLower (a :: l)) with _ | cv
      · rfl
      · rw [dictBoth, hp, h] at hd
        cases hd
    simp only [convertCompoundWord, convertWord, hp, hc, List.isEmpty_cons,
      Bool.false_eq_true, if_false,
      if_neg (show ¬((a :: l).contains '-' = true) from
        fun hcon => Bool.noConfusion (hnh ▸ hcon))]
    by_cases hl : isLoanword (a :: l) = true
    · simp only [applyHamzaRule]
      rw [if_pos hl]
      exact stripH_no_hamza _
    · have hn2 : isIInitialNative (a :: l) = false := by
        simpa [isIInitialNative] using hni
      simp only [applyHamzaRule]
      rw [if_neg (by simp [hl]), if_neg (by simp [hn2])]
      by_cases hkg : (a :: l).any (fun c => "кКгГ".toList.contains c) = true
      · rw [if_pos hkg]
        exact stripH_no_hamza _
      · rw [if_neg hkg]
        have hharm : getInitialHarmony (a :: l) = Harmony.back := by
          simp only [getInitialHarmony]
          rw [if_pos hq]
        by_cases he : ((strLower (a :: l)).contains 'е' || (a :: l).contains 'Е') = true
        · rw [if_pos he, if_neg (by simp [hfi])]
          exact stripH_no_hamza _
        · rw [if_neg he, if_neg (by simp [hfi]), hharm]
          exact stripH_no_hamza _

theorem c3_back_consonant_no_marker_witness :
    isRun "Қысқы".toList = true ∧ ("Қысқы".toList).contains '-' = false ∧
    (strLower "Қысқы".toList).any (fun c => c == 'қ' || c == 'ғ') = true ∧
    dictBoth (strLower "Қысқы".toList) = none ∧
    strIn I_INITIAL_NATIVE_WORDS (strLower "Қысқы".toList) = false ∧
    firstIsHighFront (strLower "Қысқы".toList) = false ∧
    (convert "Қысқы".toList).contains HAMZA = false :=
  ⟨by decide, by decide, by decide, by decide, by decide, by decide,
   c3_back_consonant_no_marker _ (by decide) (by decide) (by decide)
     (by decide) (by decide) (by decide)⟩

set_option maxRecDepth 20000 in
theorem c3_back_consonant_counterexample :
    (("иық".toList).any (fun c => c == 'қ' || c == 'ғ') = true ∧
      dictBoth (strLower "иық".toList) = none ∧
      (convert "иық".toList).contains HAMZA = true) ∧
    (("өқы".toList).any (fun c => c == 'қ' || c == 'ғ') = true ∧
      dictBoth (strLower "өқы".toList) = none ∧
      (convert "өқы".toList).contains HAMZA = true) ∧
    (("қы-іс".toList).any (fun c => c == 'қ' || c == 'ғ') = true ∧
      dictBoth (strLower "қы-іс".toList) = none ∧
      (convert "қы-іс".toList).contains HAMZA = true) := by decide

/-- C4 (corrected): a run with an internal hyphen that misses both
dictionaries is converted by splitting on hyphens, converting each part
with `convert_word`, and rejoining with hyphens — but `convert_word`
itself first consults the proper-noun and exception tables for each part,
so per-part dictionary lookup does happen, contrary to the claim's
"(step 5, with no per-part dictionary lookup)"; the counterexample below
exhibits a part whose dictionary value differs from
`applyMarker(transcribe(part), part)`. -/
theorem c4_hyphen_split_per_part (w : List Char)
    (hrun : isRun w = true) (hh : w.contains '-' = true)
    (hd : dictBoth (strLower w) = none) :
    convert w = joinHyphen ((splitHyphen w).map convertWord) := by
  cases w with
  | nil => simp [isRun] at hrun
  | cons a l =>
    rw [convert_of_run _ hrun]
    have hp : dictFind PROPER_NOUNS (strLower (a :: l)) = none := by
      rcases h : dictFind PROPER_NOUNS (strLower (a :: l)) with _ | pv
      · rfl
      · rw [dictBoth, h] at hd
        cases hd
    have hc : dictFind COMMON_WORDS (strLower (a :: l)) = none := by
      rcases h : dictFind COMMON_WORDS (strLower (a :: l)) with _ | cv
      · rfl
      · rw [dictBoth, hp, h] at hd
        cases hd
    have hm : '-' ∈ (a :: l) := by simpa using hh
    simp [convertCompoundWord, hp, hc, hm]

theorem c4_hyphen_split_per_part_witness :
    isRun "ақ-су".toList = true ∧ ("ақ-су".toList).contains '-' = true ∧
    dictBoth (strLower "ақ-су".toList) = none ∧
    convert "ақ-су".toList =
      joinHyphen ((splitHyphen "ақ-су".toList).map convertWord) :=
  ⟨by decide, by decide, by decide,
   c4_hyphen_split_per_part _ (by decide) (by decide) (by decide)⟩

set_option maxRecDepth 40000 in
theorem c4_no_per_part_lookup_counterexample :
    isRun "бюджет-бюджет".toList = true ∧
    ("бюджет-бюджет".toList).contains '-' = true ∧
    dictBoth (strLower "бюджет-бюджет".toList) = none ∧
    convert "бюджет-бюджет".toList ≠
      joinHyphen ((splitHyphen "бюджет-бюджет".toList).map
        (fun p => applyHamzaRule (rawTranscribe (isLoanword p) p) p)) := by
  decide
